import Mathlib

/-!
Verification of the D-Med patient-records data layer (appv1.py)

A shallow embedding of the data model and the database-facing operations of
`appv1.py`: the SQLite tables (`users`, `patients`, `visits`) become lists of
records, each Python function over the connection becomes a pure Lean
function over that state, and the theorems below settle the specification's
claims about those functions.

Modelling conventions, stated once:
* The SQLite connection is opened without `PRAGMA foreign_keys=ON`, so the
  declared `FOREIGN KEY` clauses are *not* enforced at runtime; the embedding
  reproduces that (inserts into `visits` never check `patients`).
* `AUTOINCREMENT` primary keys are modelled by an explicit next-id counter
  starting at 1; a table is a list in rowid (insertion) order, which is also
  the scan order of an unordered `SELECT`.
* Text comparison in SQLite is memcmp over UTF-8 bytes; since UTF-8 byte
  order coincides with code-point order, it is modelled by lexicographic
  comparison of `List Char` (`memcmpLe`).
* `hashlib.sha256(...).hexdigest()` is modelled by a full SHA-256
  implementation over `Nat` (32-bit words as naturals reduced mod 2^32).
* `json.dumps` / `json.loads` on lists of strings are modelled by
  `jsonDumps` / `jsonLoads` below, reproducing Python's default formatting
  (`", "` separator, `ensure_ascii` escaping); `jsonLoads` returns `Option`,
  `none` modelling the `json.JSONDecodeError` exception.
* Python `date` values are records `{year, month, day}`; `strftime('%Y-%m-%d')`
  is `fmtDate` (glibc `%Y` does not zero-pad the year; `%m`/`%d` do).
-/

/-! ## SHA-256 over `Nat` (model of `hashlib.sha256(...).hexdigest()`) -/

/-- Reduce to a 32-bit word. -/
def w32 (n : Nat) : Nat := n % 4294967296

/-- 32-bit right rotation. -/
def rotr32 (n x : Nat) : Nat := w32 ((x >>> n) ||| (x <<< (32 - n)))

/-- The 64 SHA-256 round constants (FIPS 180-4), written in decimal. -/
def sha256K : List Nat :=
  [1116352408, 1899447441, 3049323471, 3921009573, 961987163,
   1508970993, 2453635748, 2870763221, 3624381080, 310598401,
   607225278, 1426881987, 1925078388, 2162078206, 2614888103,
   3248222580, 3835390401, 4022224774, 264347078, 604807628,
   770255983, 1249150122, 1555081692, 1996064986, 2554220882,
   2821834349, 2952996808, 3210313671, 3336571891, 3584528711,
   113926993, 338241895, 666307205, 773529912, 1294757372,
   1396182291, 1695183700, 1986661051, 2177026350, 2456956037,
   2730485921, 2820302411, 3259730800, 3345764771, 3516065817,
   3600352804, 4094571909, 275423344, 430227734, 506948616,
   659060556, 883997877, 958139571, 1322822218, 1537002063,
   1747873779, 1955562222, 2024104815, 2227730452, 2361852424,
   2428436474, 2756734187, 3204031479, 3329325298]

/-- The SHA-256 initial hash value (FIPS 180-4), written in decimal. -/
def sha256H0 : List Nat :=
  [1779033703, 3144134277, 1013904242, 2773480762,
   1359893119, 2600822924, 528734635, 1541459225]

/-- One message-schedule extension step: the next word from the 16 before it. -/
def scheduleStep (ws : List Nat) : Nat :=
  let i := ws.length
  let w15 := ws.getD (i - 15) 0
  let w2 := ws.getD (i - 2) 0
  let w16 := ws.getD (i - 16) 0
  let w7 := ws.getD (i - 7) 0
  let s0 := (rotr32 7 w15) ^^^ (rotr32 18 w15) ^^^ (w15 >>> 3)
  let s1 := (rotr32 17 w2) ^^^ (rotr32 19 w2) ^^^ (w2 >>> 10)
  w32 (w16 + s0 + w7 + s1)

/-- Extend the 16 block words by `n` scheduled words. -/
def extendWs : Nat → List Nat → List Nat
  | 0, ws => ws
  | n + 1, ws => extendWs n (ws ++ [scheduleStep ws])

/-- The SHA-256 compression function on one 64-word schedule. -/
def sha256Compress (hs ws : List Nat) : List Nat :=
  let final := (List.zip ws sha256K).foldl (fun st wk =>
    match st with
    | [a, b, c, d, e, f, g, h] =>
      let S1 := (rotr32 6 e) ^^^ (rotr32 11 e) ^^^ (rotr32 25 e)
      let ch := (e &&& f) ^^^ ((0xffffffff ^^^ e) &&& g)
      let temp1 := w32 (h + S1 + ch + wk.2 + wk.1)
      let S0 := (rotr32 2 a) ^^^ (rotr32 13 a) ^^^ (rotr32 22 a)
      let maj := (a &&& b) ^^^ (a &&& c) ^^^ (b &&& c)
      let temp2 := w32 (S0 + maj)
      [w32 (temp1 + temp2), a, b, c, w32 (d + temp1), e, f, g]
    | st => st) hs
  (List.zip hs final).map (fun p => w32 (p.1 + p.2))

/-- Big-endian bytes (8 of them) of a 64-bit length field. -/
def lenBytes64 (bitLen : Nat) : List Nat :=
  (List.range 8).map (fun i => (bitLen >>> ((7 - i) * 8)) % 256)

/-- SHA-256 padding: `0x80`, zeros to 56 mod 64, then the 64-bit bit length. -/
def padMessage (msg : List Nat) : List Nat :=
  let z := (119 - msg.length % 64) % 64
  msg ++ 0x80 :: List.replicate z 0 ++ lenBytes64 (msg.length * 8)

/-- Group four big-endian bytes into one 32-bit word, across a block. -/
def bytesToWords : List Nat → List Nat
  | b0 :: b1 :: b2 :: b3 :: rest =>
      (((b0 * 256 + b1) * 256 + b2) * 256 + b3) :: bytesToWords rest
  | _ => []

/-- Split a padded message into `n` blocks of 64 bytes. -/
def splitBlocks : Nat → List Nat → List (List Nat)
  | 0, _ => []
  | n + 1, l => l.take 64 :: splitBlocks n (l.drop 64)

/-- SHA-256 of a byte sequence, as eight 32-bit words. -/
def sha256Words (msg : List Nat) : List Nat :=
  let padded := padMessage msg
  (splitBlocks (padded.length / 64) padded).foldl
    (fun hs block => sha256Compress hs (extendWs 48 (bytesToWords block))) sha256H0

/-- Lowercase hex digit. -/
def hexDigit (n : Nat) : Char :=
  if n < 10 then Char.ofNat (48 + n) else Char.ofNat (87 + n)

/-- Eight lowercase hex digits of a 32-bit word. -/
def word32Hex (w : Nat) : String :=
  String.mk ((List.range 8).map (fun i => hexDigit ((w >>> ((7 - i) * 4)) % 16)))

/-- UTF-8 encoding of one character, as bytes. -/
def utf8Bytes (c : Char) : List Nat :=
  let n := c.toNat
  if n < 0x80 then [n]
  else if n < 0x800 then [0xc0 ||| (n >>> 6), 0x80 ||| (n &&& 0x3f)]
  else if n < 0x10000 then
    [0xe0 ||| (n >>> 12), 0x80 ||| ((n >>> 6) &&& 0x3f), 0x80 ||| (n &&& 0x3f)]
  else
    [0xf0 ||| (n >>> 18), 0x80 ||| ((n >>> 12) &&& 0x3f),
     0x80 ||| ((n >>> 6) &&& 0x3f), 0x80 ||| (n &&& 0x3f)]

/-- UTF-8 encoding of a string (Python `str.encode()`). -/
def utf8Encode (s : String) : List Nat := (s.data.map utf8Bytes).flatten

/-- `hash_password(password)`: `hashlib.sha256(password.encode()).hexdigest()`. -/
def hash_password (password : String) : String :=
  String.join ((sha256Words (utf8Encode password)).map word32Hex)

/-! ## JSON serialization of tag lists (model of `json.dumps` / `json.loads`
restricted to lists of strings, the only shape this program stores) -/

/-- Four lowercase hex digits, as `%04x` inside a `\uXXXX` escape. -/
def hex4 (n : Nat) : List Char :=
  (List.range 4).map (fun i => hexDigit ((n >>> ((3 - i) * 4)) % 16))

/-- JSON escaping of one character as `json.dumps` performs it with the
default `ensure_ascii=True`: the two mandatory escapes, the five control
shortcuts, `\uXXXX` for other control or non-ASCII characters, and a
surrogate pair for characters beyond the basic multilingual plane. -/
def escapeChar (c : Char) : List Char :=
  if c = '"' then ['\\', '"']
  else if c = '\\' then ['\\', '\\']
  else if c = Char.ofNat 8 then ['\\', 'b']
  else if c = Char.ofNat 9 then ['\\', 't']
  else if c = Char.ofNat 10 then ['\\', 'n']
  else if c = Char.ofNat 12 then ['\\', 'f']
  else if c = Char.ofNat 13 then ['\\', 'r']
  else if c.toNat ≥ 0x10000 then
    '\\' :: 'u' :: hex4 (0xd800 + (c.toNat - 0x10000) / 0x400) ++
      '\\' :: 'u' :: hex4 (0xdc00 + (c.toNat - 0x10000) % 0x400)
  else if c.toNat < 32 ∨ c.toNat > 126 then '\\' :: 'u' :: hex4 c.toNat
  else [c]

/-- Escape every character of a string body. -/
def escapeChars (cs : List Char) : List Char := (cs.map escapeChar).flatten

/-- One JSON string literal, quotes included. -/
def encodeJsonString (t : String) : String :=
  "\"" ++ String.mk (escapeChars t.data) ++ "\""

/-- Python's `", ".join` (the default `json.dumps` item separator). -/
def joinComma : List String → String
  | [] => ""
  | [s] => s
  | s :: rest => s ++ ", " ++ joinComma rest

/-- `json.dumps(tags)` for a list of strings, with default separators. -/
def jsonDumps (tags : List String) : String :=
  "[" ++ joinComma (tags.map encodeJsonString) ++ "]"

/-- JSON whitespace as `json.loads` skips it. -/
def skipWs : List Char → List Char
  | [] => []
  | c :: rest =>
    if c = ' ' ∨ c = Char.ofNat 9 ∨ c = Char.ofNat 10 ∨ c = Char.ofNat 13
    then skipWs rest else c :: rest

/-- Decode one backslash escape. `\uXXXX` escapes are not decoded by this
model (the program never stores them for its fixed ASCII tag vocabulary);
an unsupported escape makes the parse fail, which is sound for `Option`. -/
def unescapeChar (e : Char) : Option Char :=
  if e = '"' then some '"'
  else if e = '\\' then some '\\'
  else if e = '/' then some '/'
  else if e = 'b' then some (Char.ofNat 8)
  else if e = 'f' then some (Char.ofNat 12)
  else if e = 'n' then some (Char.ofNat 10)
  else if e = 'r' then some (Char.ofNat 13)
  else if e = 't' then some (Char.ofNat 9)
  else none

/-- Parse the body of a JSON string literal after its opening quote,
returning the decoded characters and the unconsumed suffix. -/
def parseStringAux (acc : List Char) : List Char → Option (List Char × List Char)
  | [] => none
  | c :: rest =>
    if c = '"' then some (acc.reverse, rest)
    else if c = '\\' then
      match rest with
      | [] => none
      | e :: rest2 =>
        match unescapeChar e with
        | some u => parseStringAux (u :: acc) rest2
        | none => none
    else parseStringAux (c :: acc) rest

/-- Parse one JSON string literal, opening quote included. -/
def parseJsonString (cs : List Char) : Option (String × List Char) :=
  match cs with
  | c :: rest =>
    if c = '"' then
      (parseStringAux [] rest).map (fun p => (String.mk p.1, p.2))
    else none
  | [] => none

/-- Parse the comma-separated items of a non-empty JSON string array up to
and including the closing bracket, requiring the input to end there. -/
def parseItemsAux : Nat → List Char → Option (List String)
  | 0, _ => none
  | fuel + 1, cs =>
    match parseJsonString cs with
    | none => none
    | some (s, rest) =>
      match skipWs rest with
      | c :: rest2 =>
        if c = ',' then (parseItemsAux fuel (skipWs rest2)).map (s :: ·)
        else if c = ']' then
          if (skipWs rest2).isEmpty then some [s] else none
        else none
      | [] => none

/-- `json.loads(s)` for a JSON array of strings; `none` models the
`JSONDecodeError` exception path. -/
def jsonLoads (s : String) : Option (List String) :=
  match skipWs s.data with
  | c :: rest =>
    if c = '[' then
      match skipWs rest with
      | d :: rest2 =>
        if d = ']' then (if (skipWs rest2).isEmpty then some [] else none)
        else parseItemsAux (rest.length + 1) (skipWs rest)
      | [] => none
    else none
  | [] => none

/-! ## Dates and the stored text format -/

/-- A Python `datetime.date`-like value as the UI hands it to the data layer. -/
structure Date where
  year : Nat
  month : Nat
  day : Nat
deriving Repr, DecidableEq

/-- Zero-pad to two digits, as `%m` / `%d` and Python's `{:02d}` format. -/
def pad2 (n : Nat) : String := if n < 10 then "0" ++ toString n else toString n

/-- `d.strftime('%Y-%m-%d')` (glibc `%Y` prints the year unpadded, which
coincides with four digits for every year the UI can produce). -/
def fmtDate (d : Date) : String :=
  toString d.year ++ "-" ++ pad2 d.month ++ "-" ++ pad2 d.day

/-- SQLite text comparison: memcmp over UTF-8 bytes, equivalently
lexicographic comparison of code points. `memcmpLe a b` is `a <= b`. -/
def memcmpLe : List Char → List Char → Bool
  | [], _ => true
  | _ :: _, [] => false
  | a :: as, b :: bs =>
    if a.toNat < b.toNat then true
    else if b.toNat < a.toNat then false
    else memcmpLe as bs

/-! ## The relational state -/

/-- A row of the `users` table. -/
structure UserRow where
  id : Nat
  username : String
  password_hash : String
deriving Repr, DecidableEq

/-- A row of the `patients` table. `handler_user` is nullable. -/
structure Patient where
  id : Nat
  name : String
  dob : String
  gender : String
  diagnosis : String
  notes : String
  status : String
  handler_user : Option String
deriving Repr, DecidableEq

/-- A row of the `visits` table; `tags` holds the stored JSON text. -/
structure Visit where
  id : Nat
  patient_id : Nat
  visit_date : String
  reason : String
  outcome : String
  progress_status : String
  tags : String
deriving Repr, DecidableEq

/-- The database state: the three tables the claims touch, each in rowid
order, with the next `AUTOINCREMENT` value per table. -/
structure DB where
  users : List UserRow
  usersNextId : Nat
  patients : List Patient
  patientsNextId : Nat
  visits : List Visit
  visitsNextId : Nat
deriving Repr, DecidableEq

/-- The state right after `CREATE TABLE`: all tables empty, rowids from 1. -/
def emptyDB : DB := ⟨[], 1, [], 1, [], 1⟩

/-! ## Operations (`appv1.py`, sections 1–4) -/

/-- `init_db(conn)`: the `CREATE TABLE IF NOT EXISTS` statements are identity
on an existing state; then the seed step checks
`SELECT * FROM users WHERE username = 'admin'` and inserts
`('admin', hash_password('admin123'))` only when that lookup is empty. -/
def init_db (db : DB) : DB :=
  if (db.users.find? (fun u => u.username == "admin")).isSome then db
  else { db with
    users := db.users ++ [⟨db.usersNextId, "admin", hash_password "admin123"⟩],
    usersNextId := db.usersNextId + 1 }

/-- `verify_password(stored_hash, provided_password)`. -/
def verify_password (stored_hash provided_password : String) : Bool :=
  stored_hash == hash_password provided_password

/-- `login_user(conn, username, password)`. The Python body
`user and verify_password(...)` returns the falsy `None` when the username
is absent; the model renders every falsy result as `false`. -/
def login_user (db : DB) (username password : String) : Bool :=
  match db.users.find? (fun u => u.username == username) with
  | none => false
  | some u => verify_password u.password_hash password

/-- `add_patient(conn, name, dob, gender, diagnosis, notes, status,
handler_user)`: the `INSERT` raises `sqlite3.IntegrityError` exactly when
the `UNIQUE(name, dob)` constraint fires; the handler catches it, performs
no write and returns `False`, otherwise the row is committed and the
function returns `True`. -/
def add_patient (db : DB) (name : String) (dob : Date)
    (gender diagnosis notes status : String) (handler_user : Option String) :
    DB × Bool :=
  if db.patients.any (fun p => p.name == name && p.dob == fmtDate dob) then
    (db, false)
  else
    ({ db with
        patients := db.patients ++
          [⟨db.patientsNextId, name, fmtDate dob, gender, diagnosis, notes,
            status, handler_user⟩],
        patientsNextId := db.patientsNextId + 1 },
      true)

/-- `add_visit(conn, patient_id, visit_date, reason, outcome, progress,
tags)`: serializes `tags` with `json.dumps`, inserts unconditionally (the
connection never enables foreign-key enforcement, so the declared
`FOREIGN KEY (patient_id)` is not checked), and returns
`cursor.lastrowid`. -/
def add_visit (db : DB) (patient_id : Nat) (visit_date : Date)
    (reason outcome progress : String) (tags : List String) : DB × Nat :=
  let tags_json := jsonDumps tags
  ({ db with
      visits := db.visits ++
        [⟨db.visitsNextId, patient_id, fmtDate visit_date, reason, outcome,
          progress, tags_json⟩],
      visitsNextId := db.visitsNextId + 1 },
    db.visitsNextId)

/-- `update_patient_status(conn, patient_id, new_status, handler_user)`:
`UPDATE patients SET status = ?, handler_user = ? WHERE id = ?`. -/
def update_patient_status (db : DB) (patient_id : Nat) (new_status : String)
    (handler_user : Option String) : DB :=
  { db with
    patients := db.patients.map (fun p =>
      if p.id == patient_id then
        { p with status := new_status, handler_user := handler_user }
      else p) }

/-- The projection `SELECT p.id, p.name, p.dob, p.gender, p.diagnosis`. -/
structure PatientReport where
  id : Nat
  name : String
  dob : String
  gender : String
  diagnosis : String
deriving Repr, DecidableEq

/-- Project a patient row onto the report columns. -/
def patientProj (p : Patient) : PatientReport :=
  ⟨p.id, p.name, p.dob, p.gender, p.diagnosis⟩

/-- `BETWEEN start AND end` on the stored visit date (SQLite text
comparison). -/
def visitInRange (s e : String) (v : Visit) : Bool :=
  memcmpLe s.data v.visit_date.data && memcmpLe v.visit_date.data e.data

/-- `get_monthly_report(conn, year, month)`: builds the literal bounds
`f"{year}-{month:02d}-01"` and `f"{year}-{month:02d}-31"` and returns the
`DISTINCT` projection of patients joined to a visit in that text range. -/
def get_monthly_report (db : DB) (year month : Nat) : List PatientReport :=
  let start_date := toString year ++ "-" ++ pad2 month ++ "-01"
  let end_date := toString year ++ "-" ++ pad2 month ++ "-31"
  ((db.patients.filter (fun p =>
      db.visits.any (fun v =>
        v.patient_id == p.id && visitInRange start_date end_date v))).map
    patientProj).dedup

/-- Python `collections.Counter` over a list: counts keyed in first-seen
order. -/
def counterIncr : List (String × Nat) → String → List (String × Nat)
  | [], t => [(t, 1)]
  | (k, n) :: rest, t =>
    if k = t then (k, n + 1) :: rest else (k, n) :: counterIncr rest t

/-- `Counter(all_tags)` as an association list in first-seen key order. -/
def counter (l : List String) : List (String × Nat) :=
  l.foldl counterIncr []

/-- Stable insertion of one counted tag into a count-descending list. -/
def insertDesc (x : String × Nat) : List (String × Nat) → List (String × Nat)
  | [] => [x]
  | y :: ys => if y.2 < x.2 then x :: y :: ys else y :: insertDesc x ys

/-- `sort_values('Jumlah', ascending=False)`: descending by count. The
pandas sort is not stability-guaranteed; this model fixes the stable order,
which agrees whenever counts are distinct. -/
def sortDesc : List (String × Nat) → List (String × Nat)
  | [] => []
  | x :: xs => insertDesc x (sortDesc xs)

/-- `get_action_tags_stats(conn)`: scans
`SELECT tags FROM visits WHERE tags IS NOT NULL AND tags != '[]'` (the
model never stores SQL `NULL` tags, as `add_visit` always writes a JSON
text), returns an empty table when the scan is empty, otherwise
deserializes every row, accumulates a `Counter` and sorts it descending by
count. `none` models a `json.loads` exception escaping the function. -/
def get_action_tags_stats (db : DB) : Option (List (String × Nat)) :=
  let rows := db.visits.filter (fun v => v.tags != "[]")
  if rows.isEmpty then some [] else
    match (rows.mapM (fun v => jsonLoads v.tags)) with
    | none => none
    | some tagLists => some (sortDesc (counter tagLists.flatten))

/-! ## General helper lemmas -/

/-- `String.append` at the character level. -/
theorem string_data_append (a b : String) : (a ++ b).data = a.data ++ b.data := rfl

/-- One `UPDATE` row transformer applied twice with the same arguments. -/
theorem update_row_idem (pid : Nat) (s : String) (hu : Option String) (p : Patient) :
    (fun q : Patient =>
        if q.id == pid then { q with status := s, handler_user := hu } else q)
      ((fun q : Patient =>
        if q.id == pid then { q with status := s, handler_user := hu } else q) p) =
    (fun q : Patient =>
        if q.id == pid then { q with status := s, handler_user := hu } else q) p := by
  by_cases hc : (p.id == pid) = true <;> simp [hc]

/-- One `update_patient_status` call absorbs an identical preceding call. -/
theorem update_patient_status_step (db : DB) (pid : Nat) (s : String)
    (hu : Option String) :
    update_patient_status (update_patient_status db pid s hu) pid s hu =
      update_patient_status db pid s hu := by
  simp only [update_patient_status, List.map_map]
  congr 1
  apply List.map_congr_left
  intro p _
  exact update_row_idem pid s hu p

/-! ## Claim theorems -/

/-- Claim C1 (settling theorem for the code bug): with an empty patient
registry, `add_visit` for the nonexistent `patient_id = 1` does not fail
and does not leave the Visit Ledger unchanged — it inserts the row (count
0 becomes 1, the stored row referencing patient 1) and returns rowid 1.
The schema declares `FOREIGN KEY (patient_id) REFERENCES patients(id)`,
but the connection never issues `PRAGMA foreign_keys=ON`, so SQLite never
raises the `ForeignKeyError` the spec (and the schema's own declaration)
calls for. -/
theorem add_visit_unknown_patient_inserts_row :
    emptyDB.patients = [] ∧
    (add_visit emptyDB 1 ⟨2024, 1, 15⟩ "checkup" "ok" "Membaik" ["EKG"]).1.visits =
      [⟨1, 1, "2024-01-15", "checkup", "ok", "Membaik", "[\"EKG\"]"⟩] ∧
    (add_visit emptyDB 1 ⟨2024, 1, 15⟩ "checkup" "ok" "Membaik" ["EKG"]).2 = 1 :=
  ⟨rfl, rfl, rfl⟩

/-- The three-visit ledger of the specification's `tag_frequency` test
property: tag lists `["A","B"]`, `["A"]` and `[]`, in that insertion
order. -/
def tagLedger : DB :=
  let d1 := (add_visit emptyDB 1 ⟨2024, 1, 1⟩ "r1" "o1" "Membaik" ["A", "B"]).1
  let d2 := (add_visit d1 1 ⟨2024, 1, 2⟩ "r2" "o2" "Tetap" ["A"]).1
  (add_visit d2 1 ⟨2024, 1, 3⟩ "r3" "o3" "Memburuk" []).1

/-- Claim C4: over the ledger with tag lists `["A","B"]`, `["A"]`, `[]`
(three stored visits), `get_action_tags_stats` returns exactly
`[("A", 2), ("B", 1)]` — counts A: 2 and B: 1, sorted descending by count,
with the empty-tag visit contributing nothing (its stored `"[]"` text is
excluded by the scan's `tags != '[]'` filter). -/
theorem tag_frequency_concrete :
    tagLedger.visits.length = 3 ∧
    get_action_tags_stats tagLedger = some [("A", 2), ("B", 1)] := by
  exact ⟨rfl, by decide⟩

/-- Claim C5: for every patient id and every (status, handler_user) pair,
repeating `update_patient_status` with that same pair is idempotent — the
store state after `n + 1` calls equals the state after one call. The
operation is a total function of the state (an unconditional `UPDATE`), so
no call errors. -/
theorem update_patient_status_idempotent (db : DB) (pid : Nat) (s : String)
    (hu : Option String) (n : Nat) :
    (fun d => update_patient_status d pid s hu)^[n + 1] db =
      update_patient_status db pid s hu := by
  induction n with
  | zero => rfl
  | succ m ih =>
    rw [Function.iterate_succ_apply', ih]
    exact update_patient_status_step db pid s hu

/-- Claim C6: immediately after first initialization (`init_db` on the
fresh empty store), with no registration call in between,
`login_user("admin", "admin123")` succeeds: the seed inserted the `admin`
row carrying `hash_password("admin123")`, and verification recomputes the
same digest. -/
theorem authenticate_admin_default_succeeds :
    login_user (init_db emptyDB) "admin" "admin123" = true := by
  simp [init_db, emptyDB, login_user, verify_password]

/-- Claim C7: `login_user` returns `false` whenever the username is absent
from the `users` table or the stored digest differs from the recomputed
digest of the supplied password. It is a total function, so in particular
an unknown username cannot raise (the Python body short-circuits the falsy
lookup result instead of subscripting it). -/
theorem authenticate_absent_or_mismatch_fails (db : DB) (username password : String)
    (h : db.users.find? (fun u => u.username == username) = none ∨
      ∀ u, db.users.find? (fun u => u.username == username) = some u →
        u.password_hash ≠ hash_password password) :
    login_user db username password = false := by
  unfold login_user
  cases hf : db.users.find? (fun u => u.username == username) with
  | none => rfl
  | some u =>
    rcases h with h0 | h1
    · rw [hf] at h0; cases h0
    · have hne := h1 u hf
      simp [verify_password, hne]

/-- Witness for C7 at a concrete input: the empty credential store has no
row for `bob`, and authentication for `bob` returns `false`. -/
theorem authenticate_absent_or_mismatch_fails_witness :
    emptyDB.users.find? (fun u => u.username == "bob") = none ∧
    login_user emptyDB "bob" "secret" = false :=
  ⟨rfl, authenticate_absent_or_mismatch_fails emptyDB "bob" "secret" (Or.inl rfl)⟩

/-- Claim C10: `update_patient_status` with a patient id matching no row is
a silent no-op — the `UPDATE` matches zero rows, the function returns
normally (it is total) and the state is unchanged. -/
theorem update_status_unknown_id_noop (db : DB) (pid : Nat) (s : String)
    (hu : Option String) (habs : ∀ p ∈ db.patients, p.id ≠ pid) :
    update_patient_status db pid s hu = db := by
  unfold update_patient_status
  have hrows : ∀ p ∈ db.patients,
      (fun q : Patient =>
        if q.id == pid then { q with status := s, handler_user := hu } else q) p =
      id p := by
    intro p hp
    simp [habs p hp]
  rw [List.map_congr_left hrows, List.map_id]

/-- A one-patient registry used as concrete witness input. -/
def onePatientDB : DB :=
  (add_patient emptyDB "Budi" ⟨1990, 5, 1⟩ "Laki-laki" "flu" "" "Hidup" none).1

/-- Witness for C10 at a concrete input: updating patient id 99 in a
registry holding only patient id 1 changes nothing. -/
theorem update_status_unknown_id_noop_witness :
    (∀ p ∈ onePatientDB.patients, p.id ≠ 99) ∧
    update_patient_status onePatientDB 99 "Meninggal Dunia" (some "admin") =
      onePatientDB :=
  ⟨by decide,
   update_status_unknown_id_noop onePatientDB 99 "Meninggal Dunia" (some "admin")
    (by decide)⟩

/-- Claim C2: registering the same `(name, dob)` twice stores exactly one
matching Patient row: the first call inserts and returns `True`, the second
hits the `UNIQUE(name, dob)` constraint, is caught as `IntegrityError`
(the spec's `DuplicateError`), returns `False`, and performs no write at
all — the state returned by the second call is exactly the state after the
first. -/
theorem add_patient_duplicate_second_fails (db : DB) (name : String) (dob : Date)
    (g1 d1 n1 s1 : String) (h1 : Option String)
    (g2 d2 n2 s2 : String) (h2 : Option String)
    (hfresh : ∀ p ∈ db.patients, ¬(p.name = name ∧ p.dob = fmtDate dob)) :
    (add_patient db name dob g1 d1 n1 s1 h1).2 = true ∧
    ((add_patient db name dob g1 d1 n1 s1 h1).1.patients.filter
        (fun p => p.name == name && p.dob == fmtDate dob)).length = 1 ∧
    add_patient (add_patient db name dob g1 d1 n1 s1 h1).1 name dob g2 d2 n2 s2 h2 =
      ((add_patient db name dob g1 d1 n1 s1 h1).1, false) := by
  have hnone : ∀ p ∈ db.patients, ¬(p.name == name && p.dob == fmtDate dob) = true := by
    intro p hp
    simpa [Bool.and_eq_true] using hfresh p hp
  have hany : db.patients.any (fun p => p.name == name && p.dob == fmtDate dob) = false := by
    simpa [List.any_eq_false] using hnone
  have hfil : db.patients.filter (fun p => p.name == name && p.dob == fmtDate dob) = [] :=
    List.filter_eq_nil_iff.mpr hnone
  refine ⟨?_, ?_, ?_⟩
  · simp [add_patient, hany]
  · simp [add_patient, hany, List.filter_append, hfil]
  · have hmem :
        (add_patient db name dob g1 d1 n1 s1 h1).1.patients.any
          (fun p => p.name == name && p.dob == fmtDate dob) = true := by
      simp [add_patient, hany, List.any_append]
    simp [add_patient, hany] at hmem ⊢

/-- Witness for C2 at a concrete input: registering ("Budi", 1990-05-01)
twice on the fresh store succeeds once, keeps one matching row, and fails
the second time without writing. -/
theorem add_patient_duplicate_second_fails_witness :
    (∀ p ∈ emptyDB.patients, ¬(p.name = "Budi" ∧ p.dob = fmtDate ⟨1990, 5, 1⟩)) ∧
    ((add_patient emptyDB "Budi" ⟨1990, 5, 1⟩ "Laki-laki" "flu" "" "Hidup" none).2 = true ∧
     ((add_patient emptyDB "Budi" ⟨1990, 5, 1⟩ "Laki-laki" "flu" "" "Hidup" none).1.patients.filter
        (fun p => p.name == "Budi" && p.dob == fmtDate ⟨1990, 5, 1⟩)).length = 1 ∧
     add_patient (add_patient emptyDB "Budi" ⟨1990, 5, 1⟩ "Laki-laki" "flu" "" "Hidup" none).1
        "Budi" ⟨1990, 5, 1⟩ "Perempuan" "batuk" "x" "Lahir di Sini" (some "admin") =
      ((add_patient emptyDB "Budi" ⟨1990, 5, 1⟩ "Laki-laki" "flu" "" "Hidup" none).1, false)) :=
  ⟨by decide,
   add_patient_duplicate_second_fails emptyDB "Budi" ⟨1990, 5, 1⟩
     "Laki-laki" "flu" "" "Hidup" none "Perempuan" "batuk" "x" "Lahir di Sini"
     (some "admin") (by decide)⟩

/-- Number of `users` rows whose username is `admin`. -/
def adminCount (db : DB) : Nat :=
  (db.users.filter (fun u => u.username == "admin")).length

/-- `init_db` is a no-op on a state that already has an `admin` row. -/
theorem init_db_of_admin_present (db : DB)
    (h : (db.users.find? (fun u => u.username == "admin")).isSome = true) :
    init_db db = db := by
  simp [init_db, h]

/-- After `init_db`, an `admin` row is present. -/
theorem init_db_admin_present (db : DB) :
    ((init_db db).users.find? (fun u => u.username == "admin")).isSome = true := by
  unfold init_db
  by_cases h : (db.users.find? (fun u => u.username == "admin")).isSome = true
  · simp [h]
  · simp only [h, if_false, Bool.false_eq_true]
    rw [List.find?_isSome]
    exact ⟨⟨db.usersNextId, "admin", hash_password "admin123"⟩,
      by simp, by simp⟩

/-- `init_db` absorbs a second application. -/
theorem init_db_idem_step (db : DB) : init_db (init_db db) = init_db db :=
  init_db_of_admin_present (init_db db) (init_db_admin_present db)

/-- Claim C9: initialization is idempotent with respect to the seed
account. From any state whose `users` table respects the `UNIQUE(username)`
constraint for `admin` (at most one such row, the invariant the schema
guarantees), running `init_db` once or any number of further times yields
the same state, that state has exactly one `admin` row, and every
pre-existing user row — in particular an `admin` row with its stored
password hash — survives unchanged, because the seed insert is guarded by
the existence check. -/
theorem init_db_idempotent_seed (db : DB) (n : Nat) (hinv : adminCount db ≤ 1) :
    init_db^[n + 1] db = init_db db ∧
    adminCount (init_db^[n + 1] db) = 1 ∧
    ∀ u ∈ db.users, u ∈ (init_db^[n + 1] db).users := by
  have hiter : init_db^[n + 1] db = init_db db := by
    induction n with
    | zero => rfl
    | succ m ih => rw [Function.iterate_succ_apply', ih, init_db_idem_step]
  refine ⟨hiter, ?_, ?_⟩
  · rw [hiter]
    unfold init_db
    by_cases h : (db.users.find? (fun u => u.username == "admin")).isSome = true
    · obtain ⟨u, hu, hpu⟩ := List.find?_isSome.mp h
      have h1 : 1 ≤ adminCount db := by
        rw [adminCount, ← List.countP_eq_length_filter]
        calc 1 = [u].countP (fun v => v.username == "admin") := by simp [hpu]
        _ ≤ db.users.countP (fun v => v.username == "admin") := by
              apply List.Sublist.countP_le
              simpa using List.singleton_sublist.mpr hu
      rw [if_pos h]
      omega
    · have hnone : ∀ v ∈ db.users, ¬(v.username == "admin") = true := by
        intro v hv hcontra
        exact h (List.find?_isSome.mpr ⟨v, hv, hcontra⟩)
      have hfil : db.users.filter (fun u => u.username == "admin") = [] :=
        List.filter_eq_nil_iff.mpr hnone
      simp only [h, if_false, Bool.false_eq_true]
      simp [adminCount, List.filter_append, hfil]
  · intro u hu
    rw [hiter]
    unfold init_db
    by_cases h : (db.users.find? (fun u => u.username == "admin")).isSome = true
    · simpa [h] using hu
    · simp only [h, if_false, Bool.false_eq_true]
      simp [List.mem_append, hu]

/-- Witness for C9 at a concrete input: the fresh empty store satisfies the
invariant, and three initializations behave like one. -/
theorem init_db_idempotent_seed_witness :
    adminCount emptyDB ≤ 1 ∧
    (init_db^[3] emptyDB = init_db emptyDB ∧
     adminCount (init_db^[3] emptyDB) = 1 ∧
     ∀ u ∈ emptyDB.users, u ∈ (init_db^[3] emptyDB).users) :=
  ⟨by decide, init_db_idempotent_seed emptyDB 2 (by decide)⟩

/-- Membership in the monthly report: exactly the projected patients having
some visit whose stored date lies between the two literal bound strings
under SQLite text comparison. -/
theorem mem_get_monthly_report (db : DB) (year month : Nat) (r : PatientReport) :
    r ∈ get_monthly_report db year month ↔
      ∃ p, p ∈ db.patients ∧ patientProj p = r ∧
        ∃ v, v ∈ db.visits ∧ v.patient_id = p.id ∧
          memcmpLe (toString year ++ "-" ++ pad2 month ++ "-01").data
            v.visit_date.data = true ∧
          memcmpLe v.visit_date.data
            (toString year ++ "-" ++ pad2 month ++ "-31").data = true := by
  unfold get_monthly_report visitInRange
  simp only [List.mem_dedup, List.mem_map, List.mem_filter, List.any_eq_true,
    Bool.and_eq_true, beq_iff_eq]
  constructor
  · rintro ⟨p, ⟨hp, v, hv, hpid, h1, h2⟩, hproj⟩
    exact ⟨p, hp, hproj, v, hv, hpid, h1, h2⟩
  · rintro ⟨p, hp, hproj, v, hv, hpid, h1, h2⟩
    exact ⟨p, ⟨hp, v, hv, hpid, h1, h2⟩, hproj⟩

/-- Claim C3: `get_monthly_report(year, month)` returns the distinct
(duplicate-free) projections of exactly those patients having at least one
visit whose stored date lies between the literal strings
`"{year}-{month:02d}-01"` and `"{year}-{month:02d}-31"` under string
comparison; in particular a visit dated "2024-02-29" puts its patient in
the report for (2024, 2), and a visit dated "2024-04-30" puts its patient
in the report for (2024, 4), since `"2024-04-30" <= "2024-04-31"` as
text. -/
theorem monthly_report_string_range (db : DB) (year month : Nat) :
    (get_monthly_report db year month).Nodup ∧
    (∀ r, r ∈ get_monthly_report db year month ↔
      ∃ p, p ∈ db.patients ∧ patientProj p = r ∧
        ∃ v, v ∈ db.visits ∧ v.patient_id = p.id ∧
          memcmpLe (toString year ++ "-" ++ pad2 month ++ "-01").data
            v.visit_date.data = true ∧
          memcmpLe v.visit_date.data
            (toString year ++ "-" ++ pad2 month ++ "-31").data = true) ∧
    (∀ p ∈ db.patients, ∀ v ∈ db.visits, v.patient_id = p.id →
      v.visit_date = "2024-02-29" →
      patientProj p ∈ get_monthly_report db 2024 2) ∧
    (∀ p ∈ db.patients, ∀ v ∈ db.visits, v.patient_id = p.id →
      v.visit_date = "2024-04-30" →
      patientProj p ∈ get_monthly_report db 2024 4) := by
  refine ⟨List.nodup_dedup _, fun r => mem_get_monthly_report db year month r, ?_, ?_⟩
  · intro p hp v hv hpid hdate
    rw [mem_get_monthly_report]
    exact ⟨p, hp, rfl, v, hv, hpid, by rw [hdate]; decide, by rw [hdate]; decide⟩
  · intro p hp v hv hpid hdate
    rw [mem_get_monthly_report]
    exact ⟨p, hp, rfl, v, hv, hpid, by rw [hdate]; decide, by rw [hdate]; decide⟩

/-- A store with one patient and one leap-day visit, 2024-02-29. -/
def febVisitDB : DB :=
  (add_visit onePatientDB 1 ⟨2024, 2, 29⟩ "kontrol" "baik" "Membaik" ["EKG"]).1

/-- Witness for C3 at a concrete input: the leap-day visit of the only
patient makes that patient's projection appear in the report for
February 2024. -/
theorem monthly_report_string_range_witness :
    patientProj ⟨1, "Budi", "1990-05-01", "Laki-laki", "flu", "", "Hidup", none⟩ ∈
      get_monthly_report febVisitDB 2024 2 :=
  (monthly_report_string_range febVisitDB 2024 2).2.2.1
    ⟨1, "Budi", "1990-05-01", "Laki-laki", "flu", "", "Hidup", none⟩ (by decide)
    ⟨1, 1, "2024-02-29", "kontrol", "baik", "Membaik", "[\"EKG\"]"⟩ (by decide)
    rfl rfl

/-! ## Round-trip of the tag serialization -/

/-- Rebuilding a string from its own characters is the identity. -/
theorem string_mk_data (s : String) : String.mk s.data = s := rfl

/-- `escapeChars` unfolded one character at a time. -/
theorem escapeChars_cons (c : Char) (cs : List Char) :
    escapeChars (c :: cs) = escapeChar c ++ escapeChars cs := by
  simp [escapeChars]

/-- A printable ASCII character other than the quote and the backslash is
emitted verbatim by the `json.dumps` escaper. -/
theorem escapeChar_plain (c : Char) (h32 : 32 ≤ c.toNat) (h126 : c.toNat ≤ 126)
    (hq : c ≠ '"') (hb : c ≠ '\\') : escapeChar c = [c] := by
  have h8 : c ≠ Char.ofNat 8 := by rintro rfl; exact absurd h32 (by decide)
  have h9 : c ≠ Char.ofNat 9 := by rintro rfl; exact absurd h32 (by decide)
  have h10 : c ≠ Char.ofNat 10 := by rintro rfl; exact absurd h32 (by decide)
  have h12 : c ≠ Char.ofNat 12 := by rintro rfl; exact absurd h32 (by decide)
  have h13 : c ≠ Char.ofNat 13 := by rintro rfl; exact absurd h32 (by decide)
  have hhi : ¬ c.toNat ≥ 0x10000 := by omega
  have hmid : ¬ (c.toNat < 32 ∨ c.toNat > 126) := by omega
  simp [escapeChar, hq, hb, h8, h9, h10, h12, h13, hhi, hmid]

/-- A closing quote ends the string body wherever it stands. -/
theorem parseStringAux_quote (acc rest : List Char) :
    parseStringAux acc ('"' :: rest) = some (acc.reverse, rest) := by
  cases rest with
  | nil => simp [parseStringAux]
  | cons e rest2 => simp [parseStringAux]

/-- A plain character is accumulated and parsing continues. -/
theorem parseStringAux_plain (c : Char) (hq : c ≠ '"') (hb : c ≠ '\\')
    (acc rest : List Char) :
    parseStringAux acc (c :: rest) = parseStringAux (c :: acc) rest := by
  cases rest with
  | nil => simp [parseStringAux, hq, hb]
  | cons e rest2 => simp [parseStringAux, hq, hb]

/-- A decodable backslash escape is consumed as one character. -/
theorem parseStringAux_unescape (e u : Char) (he : unescapeChar e = some u)
    (acc rest : List Char) :
    parseStringAux acc ('\\' :: e :: rest) = parseStringAux (u :: acc) rest := by
  simp [parseStringAux, he]

/-- Parsing back an escaped printable-ASCII body stops at the closing
quote, recovering the body exactly and leaving the suffix untouched. -/
theorem parseStringAux_escape (cs : List Char) :
    (∀ c ∈ cs, 32 ≤ c.toNat ∧ c.toNat ≤ 126) →
    ∀ acc rest, parseStringAux acc (escapeChars cs ++ '"' :: rest) =
      some (acc.reverse ++ cs, rest) := by
  induction cs with
  | nil =>
    intro _ acc rest
    rw [show escapeChars [] = [] from rfl, List.nil_append, List.append_nil]
    exact parseStringAux_quote acc rest
  | cons c cs ih =>
    intro h acc rest
    obtain ⟨h32, h126⟩ := h c (List.mem_cons_self c cs)
    have htail : ∀ x ∈ cs, 32 ≤ x.toNat ∧ x.toNat ≤ 126 :=
      fun x hx => h x (List.mem_cons_of_mem c hx)
    rw [escapeChars_cons, List.append_assoc]
    by_cases hq : c = '"'
    · subst hq
      rw [show escapeChar '"' = ['\\', '"'] from rfl]
      rw [show (['\\', '"'] : List Char) ++ (escapeChars cs ++ '"' :: rest) =
            '\\' :: '"' :: (escapeChars cs ++ '"' :: rest) from rfl]
      rw [parseStringAux_unescape '"' '"' rfl acc (escapeChars cs ++ '"' :: rest)]
      rw [ih htail ('"' :: acc) rest]
      simp
    · by_cases hb : c = '\\'
      · subst hb
        rw [show escapeChar '\\' = ['\\', '\\'] from rfl]
        rw [show (['\\', '\\'] : List Char) ++ (escapeChars cs ++ '"' :: rest) =
              '\\' :: '\\' :: (escapeChars cs ++ '"' :: rest) from rfl]
        rw [parseStringAux_unescape '\\' '\\' rfl acc (escapeChars cs ++ '"' :: rest)]
        rw [ih htail ('\\' :: acc) rest]
        simp
      · rw [escapeChar_plain c h32 h126 hq hb, List.singleton_append]
        rw [parseStringAux_plain c hq hb acc (escapeChars cs ++ '"' :: rest)]
        rw [ih htail (c :: acc) rest]
        simp

/-- Parsing one encoded string literal recovers it and keeps the suffix. -/
theorem parseJsonString_encode (t : String) (rest : List Char)
    (h : ∀ c ∈ t.data, 32 ≤ c.toNat ∧ c.toNat ≤ 126) :
    parseJsonString ((encodeJsonString t).data ++ rest) = some (t, rest) := by
  rw [show (encodeJsonString t).data ++ rest =
        '"' :: ((escapeChars t.data ++ ['"']) ++ rest) from rfl,
      List.append_assoc, List.singleton_append]
  simp only [parseJsonString]
  rw [if_pos trivial, parseStringAux_escape t.data h [] rest]
  simp [string_mk_data]

/-- The character stream of the serialized list after the opening bracket:
encoded items joined by `", "`, then the closing bracket. -/
def encItemsChars : List String → List Char
  | [] => [']']
  | [t] => (encodeJsonString t).data ++ [']']
  | t :: ts => (encodeJsonString t).data ++ ',' :: ' ' :: encItemsChars ts

/-- `", ".join` of the encoded items, at the character level. -/
theorem joinComma_encode_data (t : String) (ts : List String) :
    (joinComma ((t :: ts).map encodeJsonString)).data ++ [']'] =
      encItemsChars (t :: ts) := by
  induction ts generalizing t with
  | nil => rfl
  | cons t2 ts2 ih =>
    rw [show joinComma ((t :: t2 :: ts2).map encodeJsonString) =
          encodeJsonString t ++ ", " ++ joinComma ((t2 :: ts2).map encodeJsonString)
        from rfl]
    rw [show encItemsChars (t :: t2 :: ts2) =
          (encodeJsonString t).data ++ ',' :: ' ' :: encItemsChars (t2 :: ts2)
        from rfl]
    rw [← ih t2, string_data_append, string_data_append]
    rw [show (", " : String).data = [',', ' '] from rfl]
    simp [List.append_assoc]

/-- The serialized list at the character level. -/
theorem jsonDumps_data (tags : List String) :
    (jsonDumps tags).data = '[' :: encItemsChars tags := by
  cases tags with
  | nil => rfl
  | cons t ts =>
    rw [show (jsonDumps (t :: ts)).data =
          '[' :: ((joinComma ((t :: ts).map encodeJsonString)).data ++ [']'])
        from rfl]
    rw [joinComma_encode_data t ts]

/-- The encoded stream is at least as long as the item list. -/
theorem encItemsChars_length (ts : List String) :
    ts.length ≤ (encItemsChars ts).length := by
  induction ts with
  | nil => simp [encItemsChars]
  | cons t ts ih =>
    cases ts with
    | nil =>
      rw [show encItemsChars [t] = (encodeJsonString t).data ++ [']'] from rfl]
      simp only [List.length_cons, List.length_append, List.length_nil]
      omega
    | cons t2 ts2 =>
      rw [show encItemsChars (t :: t2 :: ts2) =
            (encodeJsonString t).data ++ ',' :: ' ' :: encItemsChars (t2 :: ts2)
          from rfl]
      simp only [List.length_cons, List.length_append] at ih ⊢
      omega

/-- `skipWs` leaves a stream whose head is not JSON whitespace alone. -/
theorem skipWs_cons_not_ws (c : Char) (l : List Char)
    (h : ¬(c = ' ' ∨ c = Char.ofNat 9 ∨ c = Char.ofNat 10 ∨ c = Char.ofNat 13)) :
    skipWs (c :: l) = c :: l := by
  simp only [skipWs]
  rw [if_neg h]

/-- The encoded stream of a non-empty item list starts with a quote. -/
theorem encItemsChars_cons_head (x : String) (xs : List String) :
    ∃ l, encItemsChars (x :: xs) = '"' :: l := by
  cases xs with
  | nil => exact ⟨_, rfl⟩
  | cons y ys => exact ⟨_, rfl⟩

/-- The item loop of the array parser recovers every encoded item list with
any sufficient recursion budget. -/
theorem parseItemsAux_encode (ts : List String) :
    ∀ (t : String) (fuel : Nat),
    (∀ u ∈ t :: ts, ∀ c ∈ u.data, 32 ≤ c.toNat ∧ c.toNat ≤ 126) →
    ts.length < fuel →
    parseItemsAux fuel (encItemsChars (t :: ts)) = some (t :: ts) := by
  induction ts with
  | nil =>
    intro t fuel h hf
    have ht := h t (List.mem_cons_self t [])
    cases fuel with
    | zero => exact absurd hf (by omega)
    | succ f =>
      rw [show encItemsChars [t] = (encodeJsonString t).data ++ [']'] from rfl]
      simp only [parseItemsAux]
      rw [parseJsonString_encode t [']'] ht]
      simp [skipWs]
  | cons t2 ts2 ih =>
    intro t fuel h hf
    have ht := h t (List.mem_cons_self _ _)
    have htail : ∀ u ∈ t2 :: ts2, ∀ c ∈ u.data, 32 ≤ c.toNat ∧ c.toNat ≤ 126 :=
      fun u hu => h u (List.mem_cons_of_mem _ hu)
    cases fuel with
    | zero => exact absurd hf (by omega)
    | succ f =>
      have hf2 : ts2.length < f := by
        simp only [List.length_cons] at hf
        omega
      obtain ⟨l, hl⟩ := encItemsChars_cons_head t2 ts2
      have hrec := ih t2 f htail hf2
      rw [hl] at hrec
      rw [show encItemsChars (t :: t2 :: ts2) =
            (encodeJsonString t).data ++ ',' :: ' ' :: encItemsChars (t2 :: ts2)
          from rfl, hl]
      simp only [parseItemsAux]
      rw [parseJsonString_encode t (',' :: ' ' :: '"' :: l) ht]
      simp [skipWs, hrec]

/-- `jsonLoads` on a bracket-then-quote stream runs the item loop with the
stream's own length as budget. -/
theorem jsonLoads_bracket_quote (l : List Char) :
    jsonLoads (String.mk ('[' :: '"' :: l)) =
      parseItemsAux (('"' :: l).length + 1) ('"' :: l) := rfl

/-- `json.loads` inverts `json.dumps` on every list of printable-ASCII
strings, preserving order and multiplicity. -/
theorem jsonLoads_jsonDumps (tags : List String)
    (h : ∀ t ∈ tags, ∀ c ∈ t.data, 32 ≤ c.toNat ∧ c.toNat ≤ 126) :
    jsonLoads (jsonDumps tags) = some tags := by
  cases tags with
  | nil => decide
  | cons t ts =>
    obtain ⟨l, hl⟩ := encItemsChars_cons_head t ts
    have hmk : jsonDumps (t :: ts) = String.mk ('[' :: '"' :: l) := by
      calc jsonDumps (t :: ts) = String.mk ((jsonDumps (t :: ts)).data) :=
            (string_mk_data _).symm
        _ = String.mk ('[' :: '"' :: l) := by rw [jsonDumps_data, hl]
    rw [hmk, jsonLoads_bracket_quote l, ← hl]
    refine parseItemsAux_encode ts t _ h ?_
    have h1 := encItemsChars_length (t :: ts)
    simp only [List.length_cons] at h1 ⊢
    omega

/-- Claim C8: for every list of tags passed to `add_visit` — duplicates
included — whose tags consist of printable-ASCII characters (every list the
program can pass: the UI draws tags from the fixed ASCII vocabulary
`AVAILABLE_TAGS`), serialization on store and deserialization on read is a
lossless round-trip: the stored row carries `json.dumps(tags)`, and
`json.loads` of that text is exactly the given list, order preserved and
duplicates retained. -/
theorem tags_roundtrip_lossless (db : DB) (pid : Nat) (d : Date)
    (reason outcome progress : String) (tags : List String)
    (h : ∀ t ∈ tags, ∀ c ∈ t.data, 32 ≤ c.toNat ∧ c.toNat ≤ 126) :
    (add_visit db pid d reason outcome progress tags).1.visits.getLast? =
      some ⟨db.visitsNextId, pid, fmtDate d, reason, outcome, progress,
        jsonDumps tags⟩ ∧
    jsonLoads (jsonDumps tags) = some tags := by
  constructor
  · simp [add_visit]
  · exact jsonLoads_jsonDumps tags h

/-- Witness for C8 at a concrete input: a tag list with a duplicate,
`["EKG", "EKG", "Injeksi"]`, is stored serialized and recovered verbatim. -/
theorem tags_roundtrip_lossless_witness :
    (∀ t ∈ ["EKG", "EKG", "Injeksi"], ∀ c ∈ t.data,
      32 ≤ c.toNat ∧ c.toNat ≤ 126) ∧
    ((add_visit emptyDB 1 ⟨2024, 1, 2⟩ "kontrol" "baik" "Membaik"
        ["EKG", "EKG", "Injeksi"]).1.visits.getLast? =
      some ⟨1, 1, "2024-01-02", "kontrol", "baik", "Membaik",
        jsonDumps ["EKG", "EKG", "Injeksi"]⟩ ∧
     jsonLoads (jsonDumps ["EKG", "EKG", "Injeksi"]) =
      some ["EKG", "EKG", "Injeksi"]) :=
  ⟨by decide,
   tags_roundtrip_lossless emptyDB 1 ⟨2024, 1, 2⟩ "kontrol" "baik" "Membaik"
    ["EKG", "EKG", "Injeksi"] (by decide)⟩
